import Mathlib

/-!
A verification development for the vql query engine: a reflective query
interface that traverses dynamically shaped structured values (structs,
maps, slices).  The Go package is embedded shallowly: Go interface values
become the inductive `Value`, the engine's value cell (current value plus
parent) becomes `Cell`, each query combinator becomes a constructor of
`Query`, and the per-combinator `eval` methods become the mutually
recursive evaluator `evalQ`.  Go map iteration order is unspecified at
runtime, so the evaluator is parameterized by the order `σ : MapPerm` in
which a map's entries are presented to `Each` and `Select`.
-/

namespace Vql

/-- Runtime types, as far as the engine inspects them: the key type of a
map (`reflect.Type.Key`), the declared argument type of a transform
function, and assignability between the two.  `tIface` is Go's empty
interface type. -/
inductive VType where
  | tStr
  | tInt
  | tBool
  | tIface
  | tSeq
  | tMap (key : VType)
  | tStruct (tname : String)
  | tPtr (elem : VType)
deriving DecidableEq

/-- A Go interface value as seen by the engine: the absence marker `vnil`
(a nil interface), scalars, slices, maps tagged with their key type,
structs tagged with their type name and carrying named (exported) fields,
and single-level pointers.  A nil pointer is `vptr vnil`.  Struct fields
are name-value pairs whose names are `vstr` values, sharing the entry-pair
shape of maps. -/
inductive Value where
  | vnil
  | vstr (s : String)
  | vint (n : Int)
  | vbool (b : Bool)
  | vseq (xs : List Value)
  | vmap (kt : VType) (entries : List (Value × Value))
  | vstruct (tname : String) (fields : List (Value × Value))
  | vptr (p : Value)

mutual

/-- Structural equality of values, modelling Go's `==` on the interface
values the engine compares (map keys). -/
def veq : Value → Value → Bool
  | .vnil, .vnil => true
  | .vstr a, .vstr b => a == b
  | .vint a, .vint b => a == b
  | .vbool a, .vbool b => a == b
  | .vseq a, .vseq b => veqList a b
  | .vmap ka a, .vmap kb b => ka == kb && veqEntries a b
  | .vstruct na a, .vstruct nb b => na == nb && veqEntries a b
  | .vptr a, .vptr b => veq a b
  | _, _ => false

def veqList : List Value → List Value → Bool
  | [], [] => true
  | a :: as, b :: bs => veq a b && veqList as bs
  | _, _ => false

def veqEntries : List (Value × Value) → List (Value × Value) → Bool
  | [], [] => true
  | (k, v) :: as, (l, w) :: bs => veq k l && veq v w && veqEntries as bs
  | _, _ => false

end

mutual

theorem veq_refl : (a : Value) → veq a a = true
  | .vnil => rfl
  | .vstr s => by simp [veq]
  | .vint n => by simp [veq]
  | .vbool b => by simp [veq]
  | .vseq xs => by simp [veq, veqList_refl xs]
  | .vmap kt es => by simp [veq, veqEntries_refl es]
  | .vstruct n fs => by simp [veq, veqEntries_refl fs]
  | .vptr p => by simp [veq, veq_refl p]

theorem veqList_refl : (xs : List Value) → veqList xs xs = true
  | [] => rfl
  | x :: xs => by simp [veqList, veq_refl x, veqList_refl xs]

theorem veqEntries_refl : (es : List (Value × Value)) → veqEntries es es = true
  | [] => rfl
  | (k, v) :: es => by simp [veqEntries, veq_refl k, veq_refl v, veqEntries_refl es]

end

mutual

theorem veq_sound : (a b : Value) → veq a b = true → a = b
  | .vnil, b, h => by cases b <;> simp [veq] at h ⊢
  | .vstr s, b, h => by cases b <;> simp [veq] at h ⊢; exact h
  | .vint n, b, h => by cases b <;> simp [veq] at h ⊢; exact h
  | .vbool x, b, h => by cases b <;> simp [veq] at h ⊢; exact h
  | .vseq xs, b, h => by
      cases b <;> simp [veq] at h ⊢
      case vseq ys => exact veqList_sound xs ys h
  | .vmap kt es, b, h => by
      cases b <;> simp [veq] at h ⊢
      case vmap kt2 es2 => exact ⟨h.1, veqEntries_sound es es2 h.2⟩
  | .vstruct n fs, b, h => by
      cases b <;> simp [veq] at h ⊢
      case vstruct n2 fs2 => exact ⟨h.1, veqEntries_sound fs fs2 h.2⟩
  | .vptr p, b, h => by
      cases b <;> simp [veq] at h ⊢
      case vptr q => exact veq_sound p q h

theorem veqList_sound : (xs ys : List Value) → veqList xs ys = true → xs = ys
  | [], [], _ => rfl
  | [], _ :: _, h => by simp [veqList] at h
  | _ :: _, [], h => by simp [veqList] at h
  | x :: xs, y :: ys, h => by
      simp only [veqList, Bool.and_eq_true] at h
      simp [veq_sound x y h.1, veqList_sound xs ys h.2]

theorem veqEntries_sound :
    (xs ys : List (Value × Value)) → veqEntries xs ys = true → xs = ys
  | [], [], _ => rfl
  | [], _ :: _, h => by simp [veqEntries] at h
  | _ :: _, [], h => by simp [veqEntries] at h
  | (k, v) :: xs, (l, w) :: ys, h => by
      simp only [veqEntries, Bool.and_eq_true] at h
      simp [veq_sound k l h.1.1, veq_sound v w h.1.2, veqEntries_sound xs ys h.2]

end

instance : DecidableEq Value := fun a b =>
  decidable_of_iff (veq a b = true)
    ⟨veq_sound a b, fun h => h ▸ veq_refl a⟩

/-- The name `fmt` prints for a runtime type (the `%v` of a `reflect.Type`). -/
def vtypeName : VType → String
  | .tStr => "string"
  | .tInt => "int"
  | .tBool => "bool"
  | .tIface => "interface \x7b\x7d"
  | .tSeq => "[]interface \x7b\x7d"
  | .tMap k => "map[" ++ vtypeName k ++ "]interface \x7b\x7d"
  | .tStruct n => n
  | .tPtr t => "*" ++ vtypeName t

/-- The name `fmt` prints for the dynamic type of a value (the `%T` verb);
`<nil>` for the nil interface. -/
def typeName : Value → String
  | .vnil => "<nil>"
  | .vstr _ => "string"
  | .vint _ => "int"
  | .vbool _ => "bool"
  | .vseq _ => "[]interface \x7b\x7d"
  | .vmap kt _ => "map[" ++ vtypeName kt ++ "]interface \x7b\x7d"
  | .vstruct n _ => n
  | .vptr p => "*" ++ typeName p

/-- The dynamic type of a value (`reflect.TypeOf`); the nil interface has
none.  A nil pointer inside a pointer value also reports none, a harmless
coarsening: the engine never consults the type of such a value in the
branches the claims exercise. -/
def typeOf : Value → Option VType
  | .vnil => none
  | .vstr _ => some .tStr
  | .vint _ => some .tInt
  | .vbool _ => some .tBool
  | .vseq _ => some .tSeq
  | .vmap kt _ => some (.tMap kt)
  | .vstruct n _ => some (.tStruct n)
  | .vptr p => (typeOf p).map .tPtr

/-- Go assignability as the engine relies on it: a type is assignable to
itself and every type is assignable to the empty interface. -/
def assignableTo (a b : VType) : Bool :=
  b == .tIface || a == b

/-- The zero value of a declared type (`reflect.New(t).Elem()`), used when
a transform receives the absence marker.  The zero of the empty interface
is the nil interface itself; zero slices and maps are modelled by their
empty forms, which the engine cannot distinguish from nil ones. -/
def zeroVal : VType → Value
  | .tStr => .vstr ""
  | .tInt => .vint 0
  | .tBool => .vbool false
  | .tIface => .vnil
  | .tSeq => .vseq []
  | .tMap k => .vmap k []
  | .tStruct n => .vstruct n []
  | .tPtr _ => .vptr .vnil

/-- One level of pointer indirection (`reflect.Indirect`): non-pointers
pass through unchanged. -/
def indirect : Value → Value
  | .vptr p => p
  | v => v

/-- The synthetic `Entry` struct presented to subqueries when iterating a
map, with exported fields `Key` and `Value`. -/
def mkEntry (kv : Value × Value) : Value :=
  .vstruct "vql.Entry" [(.vstr "Key", kv.1), (.vstr "Value", kv.2)]

/-- Look up a map entry by key equality (`reflect.Value.MapIndex`). -/
def lookupEntry (k : Value) : List (Value × Value) → Option Value
  | [] => none
  | (l, w) :: es => if veq l k then some w else lookupEntry k es

/-- Flattening of one query result by `Cat`: slice-shaped results are
spliced element-wise, anything else is kept as a single element. -/
def catSplice : Value → List Value
  | .vseq xs => xs
  | w => [w]

/-- The engine's value cell: the current value and the parent cell it was
produced from.  The root cell of an evaluation has no parent. -/
inductive Cell where
  | mk (val : Value) (parent : Option Cell)

/-- The current value carried by a cell. -/
def Cell.val : Cell → Value
  | .mk v _ => v

/-- A root cell with no parent (`newValue`). -/
def newValue (obj : Value) : Cell := .mk obj none

/-- A cell for `obj` whose parent is `c` (`pushValue`). -/
def pushValue (c : Cell) (obj : Value) : Cell := .mk obj (some c)

/-- An order in which a map's entries are presented during iteration.  Go
deliberately leaves map iteration order unspecified, so the evaluator is
parameterized by it; every run of the Go code corresponds to some choice. -/
def MapPerm : Type := List (Value × Value) → List (Value × Value)

/-- The identity iteration order. -/
def idPerm : MapPerm := fun es => es

/-- Reversed iteration order, one of the orders a Go run may exhibit. -/
def revPerm : MapPerm := fun es => es.reverse

/-- The element list `forEach` iterates: slice elements as-is, map entries
as `Entry` values in the order `σ`, anything else a failure. -/
def elemList (σ : MapPerm) : Value → Except String (List Value)
  | .vseq xs => .ok xs
  | .vmap _ es => .ok ((σ es).map mkEntry)
  | v => .error ("value of type " ++ typeName v ++ " is not an array, map, or slice")

/-- `keyQuery.eval`: follow one pointer indirection, then look up a named
field of a struct or a well-typed key of a map; a missing field or entry
yields the nil marker, every other shape or key type is an error.  (Go
panics when an untyped nil key meets the map branch; that corner is mapped
to a distinguished error and is excluded from the theorems.) -/
def keyEval (k : Value) (v : Cell) : Except String Cell :=
  match indirect v.val with
  | .vstruct _ fields =>
      match k with
      | .vstr s =>
          match lookupEntry (.vstr s) fields with
          | some f => .ok (pushValue v f)
          | none => .ok (pushValue v .vnil)
      | _ => .error ("value of type " ++ typeName k ++ " cannot be a field name")
  | .vmap kt es =>
      match typeOf k with
      | some t =>
          if assignableTo t kt then
            match lookupEntry k es with
            | some f => .ok (pushValue v f)
            | none => .ok (pushValue v .vnil)
          else .error ("value of type " ++ typeName k ++ " cannot be a key in this map")
      | none => .error "panic: nil key"
  | _ => .error ("value of type " ++ typeName v.val ++ " is not a struct or map")

/-- `indexQuery.eval`: select one slice element by offset, counting from
the end for negative offsets; a normalized offset outside the range is an
error naming the offset and the range.  The in-range access is written
with `getD`; its default is unreachable under the guard. -/
def indexEval (i : Int) (v : Cell) : Except String Cell :=
  match v.val with
  | .vseq xs =>
      let n : Int := xs.length
      let off : Int := if i < 0 then i + n else i
      if n ≤ off ∨ off < 0 then
        .error ("index " ++ toString off ++ " is out of range for 0.." ++ toString n)
      else .ok (pushValue v (xs.getD off.toNat .vnil))
  | w => .error ("value of type " ++ typeName w ++ " is not an array or slice")

/-- `fnQuery.eval`: a transform accepted by `Func`, carried as its declared
argument type and a function returning a primary value and an optional
failure (the pure shape always returns no failure).  A nil current value is
replaced by the zero value of the argument type; any other value must be
assignable to it. -/
def fnEval (t : VType) (f : Value → Value × Option String) (v : Cell) :
    Except String Cell :=
  match v.val with
  | .vnil =>
      match f (zeroVal t) with
      | (_, some e) => .error e
      | (r, none) => .ok (pushValue v r)
  | w =>
      match typeOf w with
      | some wt =>
          if assignableTo wt t then
            match f w with
            | (_, some e) => .error e
            | (r, none) => .ok (pushValue v r)
          else .error ("argument " ++ typeName w ++ " is not assignable to " ++ vtypeName t)
      | none => .error ("argument " ++ typeName w ++ " is not assignable to " ++ vtypeName t)

/-- The accumulation loop of `mapQuery.eval` over the elements produced by
`forEach`: each element is wrapped as a child cell of the container's cell,
the subquery result values are collected in order, and the first failure
stops the loop. -/
def eachLoop (f : Cell → Except String Cell) (par : Cell) :
    List Value → Except String (List Value)
  | [] => .ok []
  | x :: xs =>
      match f (pushValue par x) with
      | .error e => .error e
      | .ok c => (eachLoop f par xs).map (fun vs => c.val :: vs)

/-- The filtering loop of `selectQuery.eval`: the predicate is evaluated on
a fresh root cell for each element, must yield a boolean, and elements
whose predicate is true are kept as their original values. -/
def selLoop (f : Cell → Except String Cell) :
    List Value → Except String (List Value)
  | [] => .ok []
  | x :: xs =>
      match f (newValue x) with
      | .error e => .error e
      | .ok c =>
          match c.val with
          | .vbool true => (selLoop f xs).map (fun vs => x :: vs)
          | .vbool false => selLoop f xs
          | w => .error ("select query yielded " ++ typeName w ++ ", not bool")

/-- The query combinators: `selfQ` (Self), `constQ` (Const, holding its
pre-built value cell), `seq` (Seq), `keyQ` (a single key lookup; the
variadic `Key` builds a `seq` of these), `each` (Each), `selectQ` (the
type underlying Select), `mapQ` (Map, its string-keyed bindings carried as
an ordered list, one of the iteration orders of the Go map), `fnQ` (the
validated form produced by Func), `indexQ` (Index), `orQ` (Or), `listQ`
(List) and `catQ` (Cat). -/
inductive Query where
  | selfQ
  | constQ (c : Cell)
  | seq (qs : List Query)
  | keyQ (k : Value)
  | each (q : Query)
  | selectQ (q : Query)
  | mapQ (bindings : List (String × Query))
  | fnQ (argType : VType) (fn : Value → Value × Option String)
  | indexQ (i : Int)
  | orQ (qs : List Query)
  | listQ (qs : List Query)
  | catQ (qs : List Query)

mutual

/-- The evaluation protocol: one `eval` per combinator, against the current
cell, producing a new cell or an error. -/
def evalQ (σ : MapPerm) : Query → Cell → Except String Cell
  | .selfQ, v => .ok v
  | .constQ c, _ => .ok c
  | .seq qs, v => evalSeq σ qs v
  | .keyQ k, v => keyEval k v
  | .each q, v =>
      match elemList σ v.val with
      | .error e => .error e
      | .ok objs => (eachLoop (evalQ σ q) v objs).map (fun vs => pushValue v (.vseq vs))
  | .selectQ q, v =>
      match elemList σ v.val with
      | .error e => .error e
      | .ok objs => (selLoop (evalQ σ q) objs).map (fun vs => pushValue v (.vseq vs))
  | .mapQ m, v => (evalBind σ m v).map (fun bs => pushValue v (.vmap .tStr bs))
  | .fnQ t f, v => fnEval t f v
  | .indexQ i, v => indexEval i v
  | .orQ qs, v => evalOr σ qs v
  | .listQ qs, v => (evalList σ qs v).map (fun vs => pushValue v (.vseq vs))
  | .catQ qs, v => (evalCat σ qs v).map (fun vs => pushValue v (.vseq vs))

/-- `Seq.eval`: left-to-right composition, each step feeding the next, the
first failure aborting. -/
def evalSeq (σ : MapPerm) : List Query → Cell → Except String Cell
  | [], v => .ok v
  | q :: qs, v =>
      match evalQ σ q v with
      | .error e => .error e
      | .ok next => evalSeq σ qs next

/-- `Or.eval`: first subquery that evaluates without error to a non-nil
value wins; errors and nil results fall through; exhaustion yields nil. -/
def evalOr (σ : MapPerm) : List Query → Cell → Except String Cell
  | [], v => .ok (pushValue v .vnil)
  | q :: qs, v =>
      match evalQ σ q v with
      | .ok next =>
          match next.val with
          | .vnil => evalOr σ qs v
          | w => .ok (pushValue v w)
      | .error _ => evalOr σ qs v

/-- `List.eval`: every subquery against the same cell, results collected in
order, first failure aborting. -/
def evalList (σ : MapPerm) : List Query → Cell → Except String (List Value)
  | [], _ => .ok []
  | q :: qs, v =>
      match evalQ σ q v with
      | .error e => .error e
      | .ok c => (evalList σ qs v).map (fun vs => c.val :: vs)

/-- `Cat.eval`: like `List.eval` but slice-shaped results are spliced in
flatly, one level deep. -/
def evalCat (σ : MapPerm) : List Query → Cell → Except String (List Value)
  | [], _ => .ok []
  | q :: qs, v =>
      match evalQ σ q v with
      | .error e => .error e
      | .ok c => (evalCat σ qs v).map (fun vs => catSplice c.val ++ vs)

/-- `Map.eval`: every named subquery against the same cell; a failure is
wrapped with the failing name; results are bound into a string-keyed map. -/
def evalBind (σ : MapPerm) :
    List (String × Query) → Cell → Except String (List (Value × Value))
  | [], _ => .ok []
  | (name, q) :: rest, v =>
      match evalQ σ q v with
      | .error e => .error ("evaluating subquery \"" ++ name ++ "\": " ++ e)
      | .ok c => (evalBind σ rest v).map (fun bs => (.vstr name, c.val) :: bs)

end

/-- The entry point `Eval`, relative to a map iteration order: wrap the
input as a root cell, evaluate, and unwrap, returning the Go pair of
result value and error — a nil result with the error of the failing step,
or the terminal value with no error. -/
def EvalO (σ : MapPerm) (q : Query) (v : Value) : Value × Option String :=
  match evalQ σ q (newValue v) with
  | .error e => (.vnil, some e)
  | .ok c => (c.val, none)

/-- `Eval` at the identity iteration order. -/
def Eval (q : Query) (v : Value) : Value × Option String :=
  EvalO idPerm q v

/-- The `Const` constructor: bakes its value into a parentless cell at
construction time. -/
def Const (obj : Value) : Query := .constQ (newValue obj)

/-- The variadic `Key` constructor: a sequence of single-key lookups. -/
def Key (ks : List Value) : Query := .seq (ks.map Query.keyQ)

/-- The variadic `Select` constructor: its subqueries form one sequential
predicate. -/
def Select (qs : List Query) : Query := .selectQ (.seq qs)

/-- Classifier for the shapes `keyQuery.eval` accepts after indirection. -/
def isRecordOrMap : Value → Bool
  | .vstruct _ _ => true
  | .vmap _ _ => true
  | _ => false

/-- Classifier for the container shapes `forEach` accepts. -/
def isContainer : Value → Bool
  | .vseq _ => true
  | .vmap _ _ => true
  | _ => false

/-- Classifier for slice-shaped values (`Index` input, `Cat` splicing). -/
def isSeqV : Value → Bool
  | .vseq _ => true
  | _ => false

/-- Whether the predicate of a Select evaluates to boolean true on an
element (used to state which elements are retained). -/
def predTrue (σ : MapPerm) (p : Query) (x : Value) : Bool :=
  match evalQ σ p (newValue x) with
  | .ok c =>
      match c.val with
      | .vbool b => b
      | _ => false
  | .error _ => false

mutual

/-- A value containing no associative-map container anywhere inside; on
such values map iteration order can never be consulted. -/
def mapFree : Value → Bool
  | .vnil => true
  | .vstr _ => true
  | .vint _ => true
  | .vbool _ => true
  | .vseq xs => mapFreeList xs
  | .vmap _ _ => false
  | .vstruct _ fs => mapFreeEntries fs
  | .vptr p => mapFree p

def mapFreeList : List Value → Bool
  | [] => true
  | x :: xs => mapFree x && mapFreeList xs

def mapFreeEntries : List (Value × Value) → Bool
  | [] => true
  | (k, w) :: es => mapFree k && mapFree w && mapFreeEntries es

end

mutual

/-- A query that can neither traverse nor introduce an associative map:
no `Map` bindings, no transform functions, and only map-free constants. -/
def qMapFree : Query → Bool
  | .selfQ => true
  | .constQ c => mapFree c.val
  | .seq qs => qlMapFree qs
  | .keyQ _ => true
  | .each q => qMapFree q
  | .selectQ q => qMapFree q
  | .mapQ _ => false
  | .fnQ _ _ => false
  | .indexQ _ => true
  | .orQ qs => qlMapFree qs
  | .listQ qs => qlMapFree qs
  | .catQ qs => qlMapFree qs

def qlMapFree : List Query → Bool
  | [] => true
  | q :: qs => qMapFree q && qlMapFree qs

end

/-- The `thingy` value `t2` of the package's own tests: a pointer to a
struct whose `T` field is a nil pointer. -/
def t2v : Value := .vptr (.vstruct "thingy"
  [(.vstr "A", .vstr "bar"), (.vstr "B", .vint 25),
   (.vstr "S", .vseq [.vstr "apple", .vstr "pie"]), (.vstr "T", .vptr .vnil)])

/-- The `thingy` value `t1` of the package's own tests. -/
def t1v : Value := .vstruct "thingy"
  [(.vstr "A", .vstr "foo"), (.vstr "B", .vint 17),
   (.vstr "S", .vseq [.vstr "pear", .vstr "plum", .vstr "cherry"]), (.vstr "T", t2v)]

/-- The record of the Concat example: scalar field `A`, sequence field `S`. -/
def catRec : Value := .vstruct "catRec"
  [(.vstr "A", .vstr "foo"), (.vstr "S", .vseq [.vstr "pear", .vstr "plum"])]

/-- The prime sequence of the Index example. -/
def primes : Value := .vseq [.vint 2, .vint 3, .vint 5, .vint 7, .vint 11, .vint 13]

theorem evalSeq_singleton (σ : MapPerm) (q : Query) (v : Cell) :
    evalSeq σ [q] v = evalQ σ q v := by
  cases h : evalQ σ q v <;> simp [evalSeq, h]

theorem selLoop_congr (f g : Cell → Except String Cell) (h : ∀ c, f c = g c) :
    ∀ xs, selLoop f xs = selLoop g xs
  | [] => rfl
  | x :: xs => by
      simp only [selLoop, h (newValue x), selLoop_congr f g h xs]

/-- Claim C2: `Or` evaluates its subqueries left to right against the same
current value; the first one that evaluates without error to a non-nil
value wins, and the result then does not depend on the remaining
subqueries (they are never consulted); an erroring or nil-valued candidate
is skipped with its error swallowed; the empty `Or`, and an `Or` whose
candidates all fail or yield nil, produce the nil marker; `Or` itself never
reports an error. -/
theorem orFallbackSemantics :
    (∀ (σ : MapPerm) (v : Cell), evalQ σ (.orQ []) v = .ok (pushValue v .vnil)) ∧
    (∀ (σ : MapPerm) (q : Query) (qs : List Query) (v c : Cell),
      evalQ σ q v = .ok c → c.val ≠ .vnil →
      evalQ σ (.orQ (q :: qs)) v = .ok (pushValue v c.val)) ∧
    (∀ (σ : MapPerm) (q : Query) (qs : List Query) (v : Cell) (e : String),
      evalQ σ q v = .error e →
      evalQ σ (.orQ (q :: qs)) v = evalQ σ (.orQ qs) v) ∧
    (∀ (σ : MapPerm) (q : Query) (qs : List Query) (v c : Cell),
      evalQ σ q v = .ok c → c.val = .vnil →
      evalQ σ (.orQ (q :: qs)) v = evalQ σ (.orQ qs) v) ∧
    (∀ (σ : MapPerm) (qs : List Query) (v : Cell),
      ∃ c : Cell, evalQ σ (.orQ qs) v = .ok c) := by
  refine ⟨fun σ v => rfl, ?_, ?_, ?_, ?_⟩
  · intro σ q qs v c h hnil
    show evalOr σ (q :: qs) v = _
    rw [evalOr, h]
    show (match c.val with
      | Value.vnil => evalOr σ qs v
      | w => Except.ok (pushValue v w)) = .ok (pushValue v c.val)
    cases hc : c.val
    case vnil => exact absurd hc hnil
    all_goals rfl
  · intro σ q qs v e h
    show evalOr σ (q :: qs) v = _
    rw [evalOr, h]
    rfl
  · intro σ q qs v c h hnil
    show evalOr σ (q :: qs) v = _
    rw [evalOr, h]
    show (match c.val with
      | Value.vnil => evalOr σ qs v
      | w => Except.ok (pushValue v w)) = _
    rw [hnil]
    rfl
  · intro σ qs v
    induction qs with
    | nil => exact ⟨pushValue v .vnil, rfl⟩
    | cons q qs ih =>
        show ∃ c, evalOr σ (q :: qs) v = .ok c
        rw [evalOr]
        cases h : evalQ σ q v with
        | error e => exact ih
        | ok next =>
            show ∃ c, (match next.val with
              | Value.vnil => evalOr σ qs v
              | w => Except.ok (pushValue v w)) = Except.ok c
            cases hn : next.val
            case vnil => exact ih
            all_goals exact ⟨_, rfl⟩

/-- Witness for C2 at concrete inputs: a winning constant shadows an
arbitrary tail, an erroring head falls through, and the empty `Or` yields
nil. -/
theorem orFallbackSemanticsWitness :
    evalQ idPerm (.orQ [Const (.vstr "x"), Const (.vstr "unreached")]) (newValue .vnil) =
      .ok (pushValue (newValue .vnil) (.vstr "x")) ∧
    evalQ idPerm (.orQ [.indexQ 0]) (newValue .vnil) = evalQ idPerm (.orQ []) (newValue .vnil) ∧
    evalQ idPerm (.orQ []) (newValue .vnil) = .ok (pushValue (newValue .vnil) .vnil) :=
  ⟨orFallbackSemantics.2.1 idPerm (Const (.vstr "x")) [Const (.vstr "unreached")]
      (newValue .vnil) (newValue (.vstr "x")) rfl (by decide),
   orFallbackSemantics.2.2.1 idPerm (.indexQ 0) [] (newValue .vnil)
      "value of type <nil> is not an array or slice" rfl,
   orFallbackSemantics.1 idPerm (newValue .vnil)⟩

/-- Claim C3: the entry point returns the failing step's error verbatim
with a nil result value — in particular no partially built collection or
intermediate value escapes — and on success returns the unwrapped terminal
value with no error; a failing step inside a `Seq` aborts the sequence
with exactly that error. -/
theorem evalEntryPoint :
    (∀ (σ : MapPerm) (q : Query) (v : Value) (e : String),
      evalQ σ q (newValue v) = .error e → EvalO σ q v = (.vnil, some e)) ∧
    (∀ (σ : MapPerm) (q : Query) (v : Value) (c : Cell),
      evalQ σ q (newValue v) = .ok c → EvalO σ q v = (c.val, none)) ∧
    (∀ (σ : MapPerm) (q : Query) (qs : List Query) (v : Cell) (e : String),
      evalQ σ q v = .error e → evalQ σ (.seq (q :: qs)) v = .error e) := by
  refine ⟨?_, ?_, ?_⟩
  · intro σ q v e h
    simp [EvalO, h]
  · intro σ q v c h
    simp [EvalO, h]
  · intro σ q qs v e h
    show evalSeq σ (q :: qs) v = _
    rw [evalSeq, h]

/-- Witness for C3: an erroring `Each` (partial collection discarded), a
successful `Self`, and a failing first step of a `Seq`, all concrete. -/
theorem evalEntryPointWitness :
    EvalO idPerm (.each (.keyQ (.vstr "X"))) (.vseq [t1v, .vint 1]) =
      (.vnil, some "value of type int is not a struct or map") ∧
    EvalO idPerm .selfQ (.vint 3) = ((newValue (.vint 3)).val, none) ∧
    evalQ idPerm (.seq [.indexQ 0, .selfQ]) (newValue .vnil) =
      .error "value of type <nil> is not an array or slice" :=
  ⟨evalEntryPoint.1 idPerm (.each (.keyQ (.vstr "X"))) (.vseq [t1v, .vint 1])
      "value of type int is not a struct or map" rfl,
   evalEntryPoint.2.1 idPerm .selfQ (.vint 3) (newValue (.vint 3)) rfl,
   evalEntryPoint.2.2 idPerm (.indexQ 0) [.selfQ] (newValue .vnil)
      "value of type <nil> is not an array or slice" rfl⟩

/-- Claim C10: the variadic `Select` wraps its subqueries in one sequential
predicate, so `Select(q1..qn)` behaves exactly like `Select` given the
single predicate `Seq{q1..qn}`, and `Select()` with no subqueries behaves
like `Select` with the identity predicate `Self`. -/
theorem selectVariadicSeq :
    (∀ (σ : MapPerm) (qs : List Query) (v : Cell),
      evalQ σ (Select qs) v = evalQ σ (Select [.seq qs]) v) ∧
    (∀ (σ : MapPerm) (v : Cell),
      evalQ σ (Select []) v = evalQ σ (.selectQ .selfQ) v) := by
  constructor
  · intro σ qs v
    show (match elemList σ v.val with
      | Except.error e => Except.error e
      | Except.ok objs =>
          (selLoop (evalQ σ (.seq qs)) objs).map (fun vs => pushValue v (.vseq vs))) =
      (match elemList σ v.val with
      | Except.error e => Except.error e
      | Except.ok objs =>
          (selLoop (evalQ σ (.seq [.seq qs])) objs).map (fun vs => pushValue v (.vseq vs)))
    cases h : elemList σ v.val with
    | error e => rfl
    | ok objs =>
        have hc : selLoop (evalQ σ (.seq qs)) objs = selLoop (evalQ σ (.seq [.seq qs])) objs :=
          selLoop_congr _ _ (fun c => (evalSeq_singleton σ (.seq qs) c).symm) objs
        simp only [hc]
  · intro σ v
    show (match elemList σ v.val with
      | Except.error e => Except.error e
      | Except.ok objs =>
          (selLoop (evalQ σ (.seq [])) objs).map (fun vs => pushValue v (.vseq vs))) =
      (match elemList σ v.val with
      | Except.error e => Except.error e
      | Except.ok objs =>
          (selLoop (evalQ σ .selfQ) objs).map (fun vs => pushValue v (.vseq vs)))
    cases h : elemList σ v.val with
    | error e => rfl
    | ok objs =>
        have hc : selLoop (evalQ σ (.seq [])) objs = selLoop (evalQ σ .selfQ) objs :=
          selLoop_congr _ _ (fun c => rfl) objs
        simp only [hc]

/-- Claim C7: `Index(i)` on a sequence of length `n` yields the element at
position `i` for `0 <= i < n` and at `n + i` for `-n <= i < 0`; a
normalized offset outside `[0, n)` is an error naming the offset and the
valid range; non-sequence input is an error; and on `[2,3,5,7,11,13]`,
`Index(-1)` yields `13` while `Index(10)` is an out-of-range error. -/
theorem indexOffsetSemantics :
    (∀ (σ : MapPerm) (i : Int) (xs : List Value) (par : Option Cell),
      0 ≤ i → i < (xs.length : Int) →
      evalQ σ (.indexQ i) (.mk (.vseq xs) par) =
        .ok (pushValue (.mk (.vseq xs) par) (xs.getD i.toNat .vnil))) ∧
    (∀ (σ : MapPerm) (i : Int) (xs : List Value) (par : Option Cell),
      -(xs.length : Int) ≤ i → i < 0 →
      evalQ σ (.indexQ i) (.mk (.vseq xs) par) =
        .ok (pushValue (.mk (.vseq xs) par) (xs.getD (i + xs.length).toNat .vnil))) ∧
    (∀ (σ : MapPerm) (i : Int) (xs : List Value) (par : Option Cell),
      (if i < 0 then i + (xs.length : Int) else i) < 0 ∨
        (xs.length : Int) ≤ (if i < 0 then i + (xs.length : Int) else i) →
      evalQ σ (.indexQ i) (.mk (.vseq xs) par) =
        .error ("index " ++ toString (if i < 0 then i + (xs.length : Int) else i) ++
          " is out of range for 0.." ++ toString (xs.length : Int))) ∧
    (∀ (σ : MapPerm) (i : Int) (w : Value) (par : Option Cell),
      isSeqV w = false →
      evalQ σ (.indexQ i) (.mk w par) =
        .error ("value of type " ++ typeName w ++ " is not an array or slice")) ∧
    (Eval (.indexQ (-1)) primes = (.vint 13, none) ∧
      Eval (.indexQ 10) primes = (.vnil, some "index 10 is out of range for 0..6")) := by
  refine ⟨?_, ?_, ?_, ?_, rfl, rfl⟩
  · intro σ i xs par h0 hn
    show indexEval i (.mk (.vseq xs) par) = _
    rw [indexEval]
    show (if (xs.length : Int) ≤ (if i < 0 then i + (xs.length : Int) else i) ∨
        (if i < 0 then i + (xs.length : Int) else i) < 0 then _ else _) = _
    rw [if_neg (by omega), if_neg (by omega)]
  · intro σ i xs par h0 hn
    show indexEval i (.mk (.vseq xs) par) = _
    rw [indexEval]
    show (if (xs.length : Int) ≤ (if i < 0 then i + (xs.length : Int) else i) ∨
        (if i < 0 then i + (xs.length : Int) else i) < 0 then _ else _) = _
    rw [if_pos hn, if_neg (by omega)]
  · intro σ i xs par hout
    show indexEval i (.mk (.vseq xs) par) = _
    rw [indexEval]
    show (if (xs.length : Int) ≤ (if i < 0 then i + (xs.length : Int) else i) ∨
        (if i < 0 then i + (xs.length : Int) else i) < 0 then _ else _) = _
    rw [if_pos (by omega)]
  · intro σ i w par h
    cases w <;> first
      | rfl
      | exact absurd h (by simp [isSeqV])

/-- Witness for C7: the general offset clauses applied on the prime list. -/
theorem indexOffsetSemanticsWitness :
    evalQ idPerm (.indexQ 1) (.mk primes none) =
      .ok (pushValue (.mk primes none) (.vint 3)) ∧
    evalQ idPerm (.indexQ (-2)) (.mk primes none) =
      .ok (pushValue (.mk primes none) (.vint 11)) ∧
    evalQ idPerm (.indexQ (-7)) (.mk primes none) =
      .error "index -1 is out of range for 0..6" ∧
    evalQ idPerm (.indexQ 0) (.mk (.vstr "x") none) =
      .error "value of type string is not an array or slice" :=
  ⟨indexOffsetSemantics.1 idPerm 1
      [.vint 2, .vint 3, .vint 5, .vint 7, .vint 11, .vint 13] none (by decide) (by decide),
   indexOffsetSemantics.2.1 idPerm (-2)
      [.vint 2, .vint 3, .vint 5, .vint 7, .vint 11, .vint 13] none (by decide) (by decide),
   indexOffsetSemantics.2.2.1 idPerm (-7)
      [.vint 2, .vint 3, .vint 5, .vint 7, .vint 11, .vint 13] none (by decide),
   indexOffsetSemantics.2.2.2.1 idPerm 0 (.vstr "x") none rfl⟩

/-- Claim C9: `Cat` splices slice-shaped subquery results flatly, one level
deep, and appends non-slice results as single elements, while `List`
appends every result unflattened; on the record with scalar `A = "foo"`
and sequence `S = ["pear","plum"]`, `Cat{Key(A),Key(S)}` yields
`["foo","pear","plum"]` while `List` of the same yields
`["foo",["pear","plum"]]`. -/
theorem catFlattenListNest :
    (∀ (σ : MapPerm) (v : Cell), evalQ σ (.catQ []) v = .ok (pushValue v (.vseq []))) ∧
    (∀ (σ : MapPerm) (q : Query) (qs : List Query) (v c : Cell) (ws : List Value)
        (p2 : Option Cell),
      evalQ σ q v = .ok c → evalQ σ (.catQ qs) v = .ok (.mk (.vseq ws) p2) →
      evalQ σ (.catQ (q :: qs)) v = .ok (pushValue v (.vseq (catSplice c.val ++ ws)))) ∧
    (∀ xs : List Value, catSplice (.vseq xs) = xs) ∧
    (∀ w : Value, isSeqV w = false → catSplice w = [w]) ∧
    (∀ (σ : MapPerm) (v : Cell), evalQ σ (.listQ []) v = .ok (pushValue v (.vseq []))) ∧
    (∀ (σ : MapPerm) (q : Query) (qs : List Query) (v c : Cell) (ws : List Value)
        (p2 : Option Cell),
      evalQ σ q v = .ok c → evalQ σ (.listQ qs) v = .ok (.mk (.vseq ws) p2) →
      evalQ σ (.listQ (q :: qs)) v = .ok (pushValue v (.vseq (c.val :: ws)))) ∧
    (Eval (.catQ [Key [.vstr "A"], Key [.vstr "S"]]) catRec =
        (.vseq [.vstr "foo", .vstr "pear", .vstr "plum"], none) ∧
      Eval (.listQ [Key [.vstr "A"], Key [.vstr "S"]]) catRec =
        (.vseq [.vstr "foo", .vseq [.vstr "pear", .vstr "plum"]], none)) := by
  refine ⟨fun σ v => rfl, ?_, fun xs => rfl, ?_, fun σ v => rfl, ?_, rfl, rfl⟩
  · intro σ q qs v c ws p2 h1 h2
    have h3 : evalCat σ qs v = .ok ws := by
      have : (evalCat σ qs v).map (fun vs => pushValue v (.vseq vs)) = .ok (.mk (.vseq ws) p2) := h2
      cases hc : evalCat σ qs v with
      | error e => rw [hc] at this; exact absurd this (by simp [Except.map])
      | ok vs =>
          rw [hc] at this
          simp only [Except.map, Except.ok.injEq] at this
          cases this
          rfl
    show (evalCat σ (q :: qs) v).map (fun vs => pushValue v (.vseq vs)) = _
    rw [evalCat, h1, h3]
    rfl
  · intro w h
    cases w <;> first
      | rfl
      | exact absurd h (by simp [isSeqV])
  · intro σ q qs v c ws p2 h1 h2
    have h3 : evalList σ qs v = .ok ws := by
      have : (evalList σ qs v).map (fun vs => pushValue v (.vseq vs)) = .ok (.mk (.vseq ws) p2) := h2
      cases hc : evalList σ qs v with
      | error e => rw [hc] at this; exact absurd this (by simp [Except.map])
      | ok vs =>
          rw [hc] at this
          simp only [Except.map, Except.ok.injEq] at this
          cases this
          rfl
    show (evalList σ (q :: qs) v).map (fun vs => pushValue v (.vseq vs)) = _
    rw [evalList, h1, h3]
    rfl

/-- Witness for C9: one `Cat` step splicing a slice-valued constant and one
`List` step nesting it, applied by the general clauses. -/
theorem catFlattenListNestWitness :
    evalQ idPerm (.catQ [Const (.vseq [.vint 1, .vint 2])]) (newValue .vnil) =
      .ok (pushValue (newValue .vnil) (.vseq [.vint 1, .vint 2])) ∧
    evalQ idPerm (.listQ [Const (.vseq [.vint 1, .vint 2])]) (newValue .vnil) =
      .ok (pushValue (newValue .vnil) (.vseq [.vseq [.vint 1, .vint 2]])) :=
  ⟨catFlattenListNest.2.1 idPerm (Const (.vseq [.vint 1, .vint 2])) [] (newValue .vnil)
      (newValue (.vseq [.vint 1, .vint 2])) [] (some (newValue .vnil)) rfl rfl,
   catFlattenListNest.2.2.2.2.2.1 idPerm (Const (.vseq [.vint 1, .vint 2])) [] (newValue .vnil)
      (newValue (.vseq [.vint 1, .vint 2])) [] (some (newValue .vnil)) rfl rfl⟩

/-- Claim C1: a `Key` lookup first follows one reference indirection on the
current value; on a record shape a name key yields the named field's value
and a non-name key is an error; on a map shape a key whose type is
assignable to the map's key type yields the stored value and an
incompatible key type is an error; a well-typed lookup that finds nothing
yields the nil marker without error; any other shape is an error. -/
theorem keyLookupSemantics :
    (∀ (σ : MapPerm) (v : Cell) (s : String) (n : String) (fs : List (Value × Value)),
      indirect v.val = .vstruct n fs →
      evalQ σ (.keyQ (.vstr s)) v =
        .ok (pushValue v ((lookupEntry (.vstr s) fs).getD .vnil))) ∧
    (∀ (σ : MapPerm) (v : Cell) (k : Value) (n : String) (fs : List (Value × Value)),
      indirect v.val = .vstruct n fs → (∀ s, k ≠ .vstr s) →
      evalQ σ (.keyQ k) v =
        .error ("value of type " ++ typeName k ++ " cannot be a field name")) ∧
    (∀ (σ : MapPerm) (v : Cell) (k : Value) (kt : VType) (es : List (Value × Value)) (t : VType),
      indirect v.val = .vmap kt es → typeOf k = some t → assignableTo t kt = true →
      evalQ σ (.keyQ k) v = .ok (pushValue v ((lookupEntry k es).getD .vnil))) ∧
    (∀ (σ : MapPerm) (v : Cell) (k : Value) (kt : VType) (es : List (Value × Value)) (t : VType),
      indirect v.val = .vmap kt es → typeOf k = some t → assignableTo t kt = false →
      evalQ σ (.keyQ k) v =
        .error ("value of type " ++ typeName k ++ " cannot be a key in this map")) ∧
    (∀ (σ : MapPerm) (v : Cell) (k : Value),
      isRecordOrMap (indirect v.val) = false →
      evalQ σ (.keyQ k) v =
        .error ("value of type " ++ typeName v.val ++ " is not a struct or map")) := by
  refine ⟨?_, ?_, ?_, ?_, ?_⟩
  · intro σ v s n fs hiv
    show keyEval (.vstr s) v = _
    rw [keyEval, hiv]
    cases hl : lookupEntry (.vstr s) fs <;> simp [hl]
  · intro σ v k n fs hiv hk
    show keyEval k v = _
    rw [keyEval, hiv]
    cases k
    case vstr s => exact absurd rfl (hk s)
    all_goals rfl
  · intro σ v k kt es t hiv ht ha
    show keyEval k v = _
    rw [keyEval, hiv]
    show (match typeOf k with
      | some t =>
          if assignableTo t kt then
            match lookupEntry k es with
            | some f => Except.ok (pushValue v f)
            | none => Except.ok (pushValue v .vnil)
          else Except.error ("value of type " ++ typeName k ++ " cannot be a key in this map")
      | none => Except.error "panic: nil key") = _
    rw [ht]
    show (if assignableTo t kt then _ else _) = _
    rw [if_pos ha]
    cases hl : lookupEntry k es <;> simp [hl]
  · intro σ v k kt es t hiv ht ha
    show keyEval k v = _
    rw [keyEval, hiv]
    show (match typeOf k with
      | some t =>
          if assignableTo t kt then
            match lookupEntry k es with
            | some f => Except.ok (pushValue v f)
            | none => Except.ok (pushValue v .vnil)
          else Except.error ("value of type " ++ typeName k ++ " cannot be a key in this map")
      | none => Except.error "panic: nil key") = _
    rw [ht]
    show (if assignableTo t kt then _ else _) = _
    rw [if_neg (by simp [ha])]
  · intro σ v k hother
    show keyEval k v = _
    rw [keyEval]
    cases hiv : indirect v.val <;> rw [hiv] at hother <;> first
      | rfl
      | exact absurd hother (by simp [isRecordOrMap])

/-- Witness for C1: a pointer to a struct is looked up through the
indirection (present field, and a missing field yielding nil); an int key
reads an int-keyed map and misses without error; a non-string key against
a record and an int key against a string-keyed map fail; a scalar input
fails. -/
theorem keyLookupSemanticsWitness :
    evalQ idPerm (.keyQ (.vstr "A")) (newValue t2v) =
      .ok (pushValue (newValue t2v) (.vstr "bar")) ∧
    evalQ idPerm (.keyQ (.vstr "Z")) (newValue t2v) =
      .ok (pushValue (newValue t2v) .vnil) ∧
    evalQ idPerm (.keyQ (.vint 10)) (newValue (.vmap .tInt [(.vint 10, .vstr "ten")])) =
      .ok (pushValue (newValue (.vmap .tInt [(.vint 10, .vstr "ten")])) (.vstr "ten")) ∧
    evalQ idPerm (.keyQ (.vint 3)) (newValue t1v) =
      .error "value of type int cannot be a field name" ∧
    evalQ idPerm (.keyQ (.vint 3)) (newValue (.vmap .tStr [])) =
      .error "value of type int cannot be a key in this map" ∧
    evalQ idPerm (.keyQ (.vstr "A")) (newValue (.vint 7)) =
      .error "value of type int is not a struct or map" :=
  ⟨keyLookupSemantics.1 idPerm (newValue t2v) "A" "thingy"
      [(.vstr "A", .vstr "bar"), (.vstr "B", .vint 25),
       (.vstr "S", .vseq [.vstr "apple", .vstr "pie"]), (.vstr "T", .vptr .vnil)] rfl,
   keyLookupSemantics.1 idPerm (newValue t2v) "Z" "thingy"
      [(.vstr "A", .vstr "bar"), (.vstr "B", .vint 25),
       (.vstr "S", .vseq [.vstr "apple", .vstr "pie"]), (.vstr "T", .vptr .vnil)] rfl,
   keyLookupSemantics.2.2.1 idPerm (newValue (.vmap .tInt [(.vint 10, .vstr "ten")]))
      (.vint 10) .tInt [(.vint 10, .vstr "ten")] .tInt rfl rfl rfl,
   keyLookupSemantics.2.1 idPerm (newValue t1v) (.vint 3) "thingy"
      [(.vstr "A", .vstr "foo"), (.vstr "B", .vint 17),
       (.vstr "S", .vseq [.vstr "pear", .vstr "plum", .vstr "cherry"]), (.vstr "T", t2v)]
      rfl (fun _ h => Value.noConfusion h),
   keyLookupSemantics.2.2.2.1 idPerm (newValue (.vmap .tStr [])) (.vint 3) .tStr [] .tInt
      rfl rfl rfl,
   keyLookupSemantics.2.2.2.2 idPerm (newValue (.vint 7)) (.vstr "A") rfl⟩

theorem selLoop_allBool (σ : MapPerm) (p : Query) :
    ∀ xs : List Value,
      (∀ x ∈ xs, ∃ (c : Cell) (b : Bool), evalQ σ p (newValue x) = .ok c ∧ c.val = .vbool b) →
      selLoop (evalQ σ p) xs = .ok (xs.filter (predTrue σ p))
  | [], _ => rfl
  | x :: xs, h => by
      obtain ⟨c, b, hc, hb⟩ := h x (by simp)
      have hp : predTrue σ p x = b := by
        rw [predTrue, hc]
        show (match c.val with
          | Value.vbool b => b
          | _ => false) = b
        rw [hb]
      have ih := selLoop_allBool σ p xs (fun y hy => h y (by simp [hy]))
      rw [selLoop, hc]
      show (match c.val with
        | Value.vbool true => (selLoop (evalQ σ p) xs).map (fun vs => x :: vs)
        | Value.vbool false => selLoop (evalQ σ p) xs
        | w => Except.error ("select query yielded " ++ typeName w ++ ", not bool")) = _
      rw [hb, ih, List.filter, hp]
      cases b <;> rfl

theorem selLoop_prefixErr (σ : MapPerm) (p : Query) (x : Value) (post : List Value)
    (e : String) (hx : evalQ σ p (newValue x) = .error e) :
    ∀ pre : List Value,
      (∀ y ∈ pre, ∃ (c : Cell) (b : Bool), evalQ σ p (newValue y) = .ok c ∧ c.val = .vbool b) →
      selLoop (evalQ σ p) (pre ++ x :: post) = .error e
  | [], _ => by
      rw [List.nil_append, selLoop, hx]
  | y :: pre, h => by
      obtain ⟨c, b, hc, hb⟩ := h y (by simp)
      have ih := selLoop_prefixErr σ p x post e hx pre (fun z hz => h z (by simp [hz]))
      rw [List.cons_append, selLoop, hc]
      show (match c.val with
        | Value.vbool true => (selLoop (evalQ σ p) (pre ++ x :: post)).map (fun vs => y :: vs)
        | Value.vbool false => selLoop (evalQ σ p) (pre ++ x :: post)
        | w => Except.error ("select query yielded " ++ typeName w ++ ", not bool")) = _
      rw [hb, ih]
      cases b <;> rfl

theorem selLoop_prefixNonBool (σ : MapPerm) (p : Query) (x : Value) (post : List Value)
    (c : Cell) (hx : evalQ σ p (newValue x) = .ok c) (hnb : ∀ b, c.val ≠ .vbool b) :
    ∀ pre : List Value,
      (∀ y ∈ pre, ∃ (d : Cell) (b : Bool), evalQ σ p (newValue y) = .ok d ∧ d.val = .vbool b) →
      selLoop (evalQ σ p) (pre ++ x :: post) =
        .error ("select query yielded " ++ typeName c.val ++ ", not bool")
  | [], _ => by
      rw [List.nil_append, selLoop, hx]
      show (match c.val with
        | Value.vbool true => (selLoop (evalQ σ p) post).map (fun vs => x :: vs)
        | Value.vbool false => selLoop (evalQ σ p) post
        | w => Except.error ("select query yielded " ++ typeName w ++ ", not bool")) = _
      cases hcv : c.val
      case vbool b => exact absurd hcv (hnb b)
      all_goals rfl
  | y :: pre, h => by
      obtain ⟨d, b, hd, hb⟩ := h y (by simp)
      have ih := selLoop_prefixNonBool σ p x post c hx hnb pre (fun z hz => h z (by simp [hz]))
      rw [List.cons_append, selLoop, hd]
      show (match d.val with
        | Value.vbool true => (selLoop (evalQ σ p) (pre ++ x :: post)).map (fun vs => y :: vs)
        | Value.vbool false => selLoop (evalQ σ p) (pre ++ x :: post)
        | w => Except.error ("select query yielded " ++ typeName w ++ ", not bool")) = _
      rw [hb, ih]
      cases b <;> rfl

/-- Claim C6: `Select` on a sequence- or map-shaped input evaluates its
predicate per element (per `Entry` for maps) on a fresh root cell, requires
every predicate result to be boolean, retains exactly the elements whose
predicate is true, in input order, as their original pre-predicate values;
the first predicate error or non-boolean result aborts the whole operation
and non-container input is an error. -/
theorem selectFilterSemantics :
    (∀ (σ : MapPerm) (p : Query) (w : Value) (par : Option Cell),
      isContainer w = false →
      evalQ σ (.selectQ p) (.mk w par) =
        .error ("value of type " ++ typeName w ++ " is not an array, map, or slice")) ∧
    (∀ (σ : MapPerm) (p : Query) (xs : List Value) (par : Option Cell),
      (∀ x ∈ xs, ∃ (c : Cell) (b : Bool), evalQ σ p (newValue x) = .ok c ∧ c.val = .vbool b) →
      evalQ σ (.selectQ p) (.mk (.vseq xs) par) =
        .ok (pushValue (.mk (.vseq xs) par) (.vseq (xs.filter (predTrue σ p))))) ∧
    (∀ (σ : MapPerm) (p : Query) (kt : VType) (es : List (Value × Value)) (par : Option Cell),
      (∀ x ∈ (σ es).map mkEntry,
        ∃ (c : Cell) (b : Bool), evalQ σ p (newValue x) = .ok c ∧ c.val = .vbool b) →
      evalQ σ (.selectQ p) (.mk (.vmap kt es) par) =
        .ok (pushValue (.mk (.vmap kt es) par)
          (.vseq (((σ es).map mkEntry).filter (predTrue σ p))))) ∧
    (∀ (σ : MapPerm) (p : Query) (pre : List Value) (x : Value) (post : List Value)
        (par : Option Cell) (e : String),
      (∀ y ∈ pre, ∃ (c : Cell) (b : Bool), evalQ σ p (newValue y) = .ok c ∧ c.val = .vbool b) →
      evalQ σ p (newValue x) = .error e →
      evalQ σ (.selectQ p) (.mk (.vseq (pre ++ x :: post)) par) = .error e) ∧
    (∀ (σ : MapPerm) (p : Query) (pre : List Value) (x : Value) (post : List Value)
        (par : Option Cell) (c : Cell),
      (∀ y ∈ pre, ∃ (d : Cell) (b : Bool), evalQ σ p (newValue y) = .ok d ∧ d.val = .vbool b) →
      evalQ σ p (newValue x) = .ok c → (∀ b, c.val ≠ .vbool b) →
      evalQ σ (.selectQ p) (.mk (.vseq (pre ++ x :: post)) par) =
        .error ("select query yielded " ++ typeName c.val ++ ", not bool")) := by
  refine ⟨?_, ?_, ?_, ?_, ?_⟩
  · intro σ p w par h
    cases w <;> first
      | rfl
      | exact absurd h (by simp [isContainer])
  · intro σ p xs par h
    show (selLoop (evalQ σ p) xs).map (fun vs => pushValue (.mk (.vseq xs) par) (.vseq vs)) = _
    rw [selLoop_allBool σ p xs h]
    rfl
  · intro σ p kt es par h
    show (selLoop (evalQ σ p) ((σ es).map mkEntry)).map
        (fun vs => pushValue (.mk (.vmap kt es) par) (.vseq vs)) = _
    rw [selLoop_allBool σ p ((σ es).map mkEntry) h]
    rfl
  · intro σ p pre x post par e hpre hx
    show (selLoop (evalQ σ p) (pre ++ x :: post)).map
        (fun vs => pushValue (.mk (.vseq (pre ++ x :: post)) par) (.vseq vs)) = _
    rw [selLoop_prefixErr σ p x post e hx pre hpre]
    rfl
  · intro σ p pre x post par c hpre hx hnb
    show (selLoop (evalQ σ p) (pre ++ x :: post)).map
        (fun vs => pushValue (.mk (.vseq (pre ++ x :: post)) par) (.vseq vs)) = _
    rw [selLoop_prefixNonBool σ p x post c hx hnb pre hpre]
    rfl

/-- Witness for C6: a boolean-constant predicate filters a two-element
sequence down to the elements where it is true; an entry-wise predicate on
a map keeps the matching entry; a predicate erroring on the first element
aborts; a non-boolean predicate aborts; a scalar input errors. -/
theorem selectFilterSemanticsWitness :
    evalQ idPerm (.selectQ (.fnQ .tIface (fun x => (.vbool (x == .vint 1), none))))
        (.mk (.vseq [.vint 1, .vint 2]) none) =
      .ok (pushValue (.mk (.vseq [.vint 1, .vint 2]) none) (.vseq [.vint 1])) ∧
    evalQ idPerm (.selectQ (.indexQ 0)) (.mk (.vseq [.vint 1]) none) =
      .error "value of type int is not an array or slice" ∧
    evalQ idPerm (.selectQ .selfQ) (.mk (.vseq [.vint 1]) none) =
      .error "select query yielded int, not bool" ∧
    evalQ idPerm (.selectQ .selfQ) (.mk (.vstr "x") none) =
      .error "value of type string is not an array, map, or slice" :=
  ⟨selectFilterSemantics.2.1 idPerm (.fnQ .tIface (fun x => (.vbool (x == .vint 1), none)))
      [.vint 1, .vint 2] none
      (by
        intro x hx
        simp only [List.mem_cons, List.not_mem_nil, or_false] at hx
        rcases hx with h | h
        · subst h
          exact ⟨pushValue (newValue (.vint 1)) (.vbool true), true, rfl, rfl⟩
        · subst h
          exact ⟨pushValue (newValue (.vint 2)) (.vbool false), false, rfl, rfl⟩),
   selectFilterSemantics.2.2.2.1 idPerm (.indexQ 0) [] (.vint 1) [] none
      "value of type int is not an array or slice" (by intro y hy; cases hy) rfl,
   selectFilterSemantics.2.2.2.2 idPerm .selfQ [] (.vint 1) [] none (newValue (.vint 1))
      (by intro y hy; cases hy) rfl (fun b h => by cases h),
   selectFilterSemantics.1 idPerm .selfQ (.vstr "x") none rfl⟩

/-- Counterexample for C5: an element-wise subquery failure inside `Each`
is not wrapped with the failing element's position — the error that `Each`
reports for a failing element is byte-identical to the error the subquery
itself reports on that element, so no position information is added. -/
theorem eachErrorUnwrapped :
    evalQ idPerm (.each (.keyQ (.vstr "X"))) (newValue (.vseq [.vint 1])) =
      .error "value of type int is not a struct or map" ∧
    evalQ idPerm (.keyQ (.vstr "X"))
        (pushValue (newValue (.vseq [.vint 1])) (.vint 1)) =
      .error "value of type int is not a struct or map" :=
  ⟨rfl, rfl⟩

/-- Claim C5, amended: a failing named subquery inside `Map`/`Bind` wraps
the originating error with the identifying name, but a failing
element-wise subquery inside `Each`, `Select`, `List` or `Concat`
propagates the originating error unmodified, with no identifying position
added. -/
theorem subqueryErrorWrapping :
    (∀ (σ : MapPerm) (name : String) (q : Query) (rest : List (String × Query))
        (v : Cell) (e : String),
      evalQ σ q v = .error e →
      evalQ σ (.mapQ ((name, q) :: rest)) v =
        .error ("evaluating subquery \"" ++ name ++ "\": " ++ e)) ∧
    (∀ (σ : MapPerm) (q : Query) (x : Value) (xs : List Value) (par : Option Cell) (e : String),
      evalQ σ q (pushValue (.mk (.vseq (x :: xs)) par) x) = .error e →
      evalQ σ (.each q) (.mk (.vseq (x :: xs)) par) = .error e) ∧
    (∀ (σ : MapPerm) (p : Query) (x : Value) (xs : List Value) (par : Option Cell) (e : String),
      evalQ σ p (newValue x) = .error e →
      evalQ σ (.selectQ p) (.mk (.vseq (x :: xs)) par) = .error e) ∧
    (∀ (σ : MapPerm) (q : Query) (rest : List Query) (v : Cell) (e : String),
      evalQ σ q v = .error e →
      evalQ σ (.listQ (q :: rest)) v = .error e) ∧
    (∀ (σ : MapPerm) (q : Query) (rest : List Query) (v : Cell) (e : String),
      evalQ σ q v = .error e →
      evalQ σ (.catQ (q :: rest)) v = .error e) := by
  refine ⟨?_, ?_, ?_, ?_, ?_⟩
  · intro σ name q rest v e h
    show (evalBind σ ((name, q) :: rest) v).map (fun bs => pushValue v (.vmap .tStr bs)) = _
    rw [evalBind, h]
    rfl
  · intro σ q x xs par e h
    show (eachLoop (evalQ σ q) (.mk (.vseq (x :: xs)) par) (x :: xs)).map
        (fun vs => pushValue (.mk (.vseq (x :: xs)) par) (.vseq vs)) = _
    rw [eachLoop, h]
    rfl
  · intro σ p x xs par e h
    show (selLoop (evalQ σ p) (x :: xs)).map
        (fun vs => pushValue (.mk (.vseq (x :: xs)) par) (.vseq vs)) = _
    rw [selLoop, h]
    rfl
  · intro σ q rest v e h
    show (evalList σ (q :: rest) v).map (fun vs => pushValue v (.vseq vs)) = _
    rw [evalList, h]
    rfl
  · intro σ q rest v e h
    show (evalCat σ (q :: rest) v).map (fun vs => pushValue v (.vseq vs)) = _
    rw [evalCat, h]
    rfl

/-- Witness for the amended C5: concrete failing subqueries under each
combinator, with `Map` wrapping the name and the element-wise combinators
passing the error through. -/
theorem subqueryErrorWrappingWitness :
    evalQ idPerm (.mapQ [("first", .indexQ 0)]) (newValue .vnil) =
      .error "evaluating subquery \"first\": value of type <nil> is not an array or slice" ∧
    evalQ idPerm (.each (.indexQ 0)) (.mk (.vseq [.vint 1]) none) =
      .error "value of type int is not an array or slice" ∧
    evalQ idPerm (.selectQ (.indexQ 0)) (.mk (.vseq [.vint 1]) none) =
      .error "value of type int is not an array or slice" ∧
    evalQ idPerm (.listQ [.indexQ 0]) (newValue .vnil) =
      .error "value of type <nil> is not an array or slice" ∧
    evalQ idPerm (.catQ [.indexQ 0]) (newValue .vnil) =
      .error "value of type <nil> is not an array or slice" :=
  ⟨subqueryErrorWrapping.1 idPerm "first" (.indexQ 0) [] (newValue .vnil)
      "value of type <nil> is not an array or slice" rfl,
   subqueryErrorWrapping.2.1 idPerm (.indexQ 0) (.vint 1) [] none
      "value of type int is not an array or slice" rfl,
   subqueryErrorWrapping.2.2.1 idPerm (.indexQ 0) (.vint 1) [] none
      "value of type int is not an array or slice" rfl,
   subqueryErrorWrapping.2.2.2.1 idPerm (.indexQ 0) [] (newValue .vnil)
      "value of type <nil> is not an array or slice" rfl,
   subqueryErrorWrapping.2.2.2.2 idPerm (.indexQ 0) [] (newValue .vnil)
      "value of type <nil> is not an array or slice" rfl⟩

/-- Counterexample for C8: when the declared parameter type is the empty
interface, the substituted zero value is the nil interface itself, so an
accepted unary function is invoked on the absence marker: the function
below reports whether its argument equals nil, and through the engine it
answers true on nil input (this mirrors `Func(IsNil)` from the package's
own tests). -/
theorem fnInvokedOnNil :
    EvalO idPerm (.fnQ .tIface (fun x => (.vbool (x == .vnil), none))) .vnil =
      (.vbool true, none) :=
  rfl

theorem fnEval_notNil (t : VType) (f : Value → Value × Option String) (v : Cell)
    (h : v.val ≠ .vnil) :
    fnEval t f v =
      match typeOf v.val with
      | some wt =>
          if assignableTo wt t then
            match f v.val with
            | (_, some e) => .error e
            | (r, none) => .ok (pushValue v r)
          else .error ("argument " ++ typeName v.val ++ " is not assignable to " ++ vtypeName t)
      | none =>
          .error ("argument " ++ typeName v.val ++ " is not assignable to " ++ vtypeName t) := by
  rw [fnEval]
  cases hv : v.val
  case vnil => exact absurd hv h
  all_goals rfl

/-- Claim C8, amended: a `Func` transform receives the current value as its
sole argument; a nil current value is replaced by the zero value of the
declared parameter type — which for an interface-typed parameter is itself
nil, so such functions do observe the absence marker — and the function's
primary return value becomes the new current value. -/
theorem fnZeroSubstitution :
    (∀ (σ : MapPerm) (t : VType) (f : Value → Value × Option String) (v : Cell) (r : Value),
      v.val = .vnil → f (zeroVal t) = (r, none) →
      evalQ σ (.fnQ t f) v = .ok (pushValue v r)) ∧
    zeroVal .tIface = .vnil ∧
    (∀ (σ : MapPerm) (t : VType) (f : Value → Value × Option String) (v : Cell)
        (wt : VType) (r : Value),
      typeOf v.val = some wt → assignableTo wt t = true → f v.val = (r, none) →
      evalQ σ (.fnQ t f) v = .ok (pushValue v r)) := by
  refine ⟨?_, rfl, ?_⟩
  · intro σ t f v r hv hf
    show fnEval t f v = _
    rw [fnEval, hv]
    show (match f (zeroVal t) with
      | (_, some e) => Except.error e
      | (r, none) => Except.ok (pushValue v r)) = _
    rw [hf]
  · intro σ t f v wt r ht ha hf
    have hne : v.val ≠ .vnil := by
      intro h
      rw [h] at ht
      exact Option.noConfusion ht
    show fnEval t f v = _
    rw [fnEval_notNil t f v hne, ht]
    show (if assignableTo wt t then _ else _) = _
    rw [if_pos ha]
    show (match f v.val with
      | (_, some e) => Except.error e
      | (r, none) => Except.ok (pushValue v r)) = _
    rw [hf]

/-- Witness for the amended C8: an int-typed transform receives the zero
int on nil input and its primary return becomes the current value; the
same transform applied to a non-nil assignable argument receives it as is. -/
theorem fnZeroSubstitutionWitness :
    evalQ idPerm (.fnQ .tInt (fun x => (x, none))) (newValue .vnil) =
      .ok (pushValue (newValue .vnil) (zeroVal .tInt)) ∧
    evalQ idPerm (.fnQ .tInt (fun x => (x, none))) (newValue (.vint 5)) =
      .ok (pushValue (newValue (.vint 5)) (.vint 5)) :=
  ⟨fnZeroSubstitution.1 idPerm .tInt (fun x => (x, none)) (newValue .vnil) (zeroVal .tInt)
      rfl rfl,
   fnZeroSubstitution.2.2 idPerm .tInt (fun x => (x, none)) (newValue (.vint 5)) .tInt
      (.vint 5) rfl rfl rfl⟩

theorem mapFreeList_all :
    ∀ xs : List Value, mapFreeList xs = true ↔ ∀ x ∈ xs, mapFree x = true
  | [] => by simp [mapFreeList]
  | x :: xs => by
      simp [mapFreeList, Bool.and_eq_true, mapFreeList_all xs]

theorem lookupEntry_mapFree (k : Value) :
    ∀ (es : List (Value × Value)) (w : Value), mapFreeEntries es = true →
      lookupEntry k es = some w → mapFree w = true
  | [], w, _, hl => Option.noConfusion hl
  | (l, u) :: es, w, h, hl => by
      have h3 : mapFree l = true ∧ mapFree u = true ∧ mapFreeEntries es = true := by
        simpa [mapFreeEntries, Bool.and_eq_true, and_assoc] using h
      rw [lookupEntry] at hl
      by_cases hv : veq l k = true
      · rw [if_pos hv] at hl
        injection hl with hl
        exact hl ▸ h3.2.1
      · rw [if_neg hv] at hl
        exact lookupEntry_mapFree k es w h3.2.2 hl

theorem mapFree_indirect (w : Value) (h : mapFree w = true) :
    mapFree (indirect w) = true := by
  cases w <;> exact h

theorem keyEval_mapFree (k : Value) (v : Cell) (h : mapFree v.val = true) :
    ∀ c : Cell, keyEval k v = .ok c → mapFree c.val = true := by
  intro c hc
  have hi := mapFree_indirect v.val h
  rw [keyEval] at hc
  split at hc
  · rename_i n fs heq
    rw [heq] at hi
    split at hc
    · rename_i s
      split at hc
      · rename_i f hl
        injection hc with hc
        rw [← hc]
        exact lookupEntry_mapFree _ fs f hi hl
      · injection hc with hc
        rw [← hc]
        rfl
    · exact Except.noConfusion hc
  · rename_i kt es heq
    rw [heq] at hi
    simp [mapFree] at hi
  · exact Except.noConfusion hc

theorem mapFree_getD :
    ∀ (xs : List Value) (n : Nat), mapFreeList xs = true →
      mapFree (xs.getD n .vnil) = true
  | [], _, _ => rfl
  | x :: xs, 0, h => ((mapFreeList_all (x :: xs)).1 h) x (by simp)
  | x :: xs, n + 1, h => by
      have h2 : mapFreeList xs = true := by
        simp only [mapFreeList, Bool.and_eq_true] at h
        exact h.2
      exact mapFree_getD xs n h2

theorem indexEval_mapFree (i : Int) (v : Cell) (h : mapFree v.val = true) :
    ∀ c : Cell, indexEval i v = .ok c → mapFree c.val = true := by
  intro c hc
  rw [indexEval] at hc
  split at hc
  · rename_i xs heq
    rw [heq] at h
    split at hc <;> simp only [] at hc <;> split at hc <;>
      first
        | exact Except.noConfusion hc
        | (injection hc with hc
           rw [← hc]
           exact mapFree_getD xs _ h)
  · exact Except.noConfusion hc

theorem catSplice_mapFree (w : Value) (h : mapFree w = true) :
    ∀ x ∈ catSplice w, mapFree x = true := by
  cases w <;> intro x hx <;> first
    | exact ((mapFreeList_all _).1 h) x hx
    | (simp only [catSplice, List.mem_singleton] at hx; exact hx ▸ h)

theorem elemList_perm (σ σ2 : MapPerm) (w : Value) (h : mapFree w = true) :
    elemList σ w = elemList σ2 w := by
  cases w <;> first
    | rfl
    | simp [mapFree] at h

theorem elemList_mapFree (σ : MapPerm) (w : Value) (xs : List Value)
    (h : mapFree w = true) (he : elemList σ w = .ok xs) :
    ∀ x ∈ xs, mapFree x = true := by
  cases w <;> try exact Except.noConfusion he
  case vseq ys =>
    injection he with he
    exact he ▸ (mapFreeList_all ys).1 h
  case vmap kt es => simp [mapFree] at h

theorem evalSeq_cons (σ : MapPerm) (q : Query) (qs : List Query) (v : Cell) :
    evalSeq σ (q :: qs) v =
      match evalQ σ q v with
      | .error e => .error e
      | .ok next => evalSeq σ qs next := rfl

theorem evalOr_cons (σ : MapPerm) (q : Query) (qs : List Query) (v : Cell) :
    evalOr σ (q :: qs) v =
      match evalQ σ q v with
      | .ok next =>
          match next.val with
          | .vnil => evalOr σ qs v
          | w => .ok (pushValue v w)
      | .error _ => evalOr σ qs v := rfl

theorem evalList_cons (σ : MapPerm) (q : Query) (qs : List Query) (v : Cell) :
    evalList σ (q :: qs) v =
      match evalQ σ q v with
      | .error e => .error e
      | .ok c => (evalList σ qs v).map (fun vs => c.val :: vs) := rfl

theorem evalCat_cons (σ : MapPerm) (q : Query) (qs : List Query) (v : Cell) :
    evalCat σ (q :: qs) v =
      match evalQ σ q v with
      | .error e => .error e
      | .ok c => (evalCat σ qs v).map (fun vs => catSplice c.val ++ vs) := rfl

theorem eachLoop_cons (f : Cell → Except String Cell) (par : Cell) (x : Value)
    (xs : List Value) :
    eachLoop f par (x :: xs) =
      match f (pushValue par x) with
      | .error e => .error e
      | .ok c => (eachLoop f par xs).map (fun vs => c.val :: vs) := rfl

theorem selLoop_cons (f : Cell → Except String Cell) (x : Value) (xs : List Value) :
    selLoop f (x :: xs) =
      match f (newValue x) with
      | .error e => .error e
      | .ok c =>
          match c.val with
          | .vbool true => (selLoop f xs).map (fun vs => x :: vs)
          | .vbool false => selLoop f xs
          | w => .error ("select query yielded " ++ typeName w ++ ", not bool") := rfl

theorem evalQ_each (σ : MapPerm) (q : Query) (v : Cell) :
    evalQ σ (.each q) v =
      match elemList σ v.val with
      | .error e => .error e
      | .ok objs => (eachLoop (evalQ σ q) v objs).map (fun vs => pushValue v (.vseq vs)) := rfl

theorem evalQ_select (σ : MapPerm) (q : Query) (v : Cell) :
    evalQ σ (.selectQ q) v =
      match elemList σ v.val with
      | .error e => .error e
      | .ok objs => (selLoop (evalQ σ q) objs).map (fun vs => pushValue v (.vseq vs)) := rfl

theorem evalQ_list (σ : MapPerm) (qs : List Query) (v : Cell) :
    evalQ σ (.listQ qs) v =
      (evalList σ qs v).map (fun vs => pushValue v (.vseq vs)) := rfl

theorem evalQ_cat (σ : MapPerm) (qs : List Query) (v : Cell) :
    evalQ σ (.catQ qs) v =
      (evalCat σ qs v).map (fun vs => pushValue v (.vseq vs)) := rfl

mutual

theorem evalQ_permIrrel : (q : Query) → ∀ (σ σ2 : MapPerm) (v : Cell),
    qMapFree q = true → mapFree v.val = true →
    evalQ σ q v = evalQ σ2 q v ∧ (∀ c, evalQ σ q v = .ok c → mapFree c.val = true)
  | .selfQ, σ, σ2, v, _, hv =>
      ⟨rfl, fun c hc => (Except.ok.inj hc) ▸ hv⟩
  | .constQ c0, σ, σ2, v, hq, _ =>
      ⟨rfl, fun c hc => (Except.ok.inj hc) ▸ hq⟩
  | .seq qs, σ, σ2, v, hq, hv => evalSeq_permIrrel qs σ σ2 v hq hv
  | .keyQ k, σ, σ2, v, _, hv =>
      ⟨rfl, fun c hc => keyEval_mapFree k v hv c hc⟩
  | .each q, σ, σ2, v, hq, hv => by
      have hel : elemList σ v.val = elemList σ2 v.val := elemList_perm σ σ2 v.val hv
      constructor
      · rw [evalQ_each, evalQ_each, ← hel]
        cases ho : elemList σ v.val with
        | error e => rfl
        | ok objs =>
            have hxs := elemList_mapFree σ v.val objs hv ho
            exact congrArg (Except.map fun vs => pushValue v (Value.vseq vs))
              ((eachLoop_permIrrel q objs σ σ2 v hq hxs).1)
      · intro c hc
        rw [evalQ_each] at hc
        cases ho : elemList σ v.val with
        | error e => rw [ho] at hc; exact Except.noConfusion hc
        | ok objs =>
            rw [ho] at hc
            have hc2 : (eachLoop (evalQ σ q) v objs).map
                (fun vs => pushValue v (Value.vseq vs)) = Except.ok c := hc
            have hxs := elemList_mapFree σ v.val objs hv ho
            cases hLoop : eachLoop (evalQ σ q) v objs with
            | error e => rw [hLoop] at hc2; exact Except.noConfusion hc2
            | ok vs =>
                rw [hLoop] at hc2
                have hvc := Except.ok.inj hc2
                have hm : mapFree (pushValue v (Value.vseq vs)).val = true :=
                  (mapFreeList_all vs).2 ((eachLoop_permIrrel q objs σ σ2 v hq hxs).2 vs hLoop)
                exact hvc ▸ hm
  | .selectQ q, σ, σ2, v, hq, hv => by
      have hel : elemList σ v.val = elemList σ2 v.val := elemList_perm σ σ2 v.val hv
      constructor
      · rw [evalQ_select, evalQ_select, ← hel]
        cases ho : elemList σ v.val with
        | error e => rfl
        | ok objs =>
            have hxs := elemList_mapFree σ v.val objs hv ho
            exact congrArg (Except.map fun vs => pushValue v (Value.vseq vs))
              ((selLoop_permIrrel q objs σ σ2 hq hxs).1)
      · intro c hc
        rw [evalQ_select] at hc
        cases ho : elemList σ v.val with
        | error e => rw [ho] at hc; exact Except.noConfusion hc
        | ok objs =>
            rw [ho] at hc
            have hc2 : (selLoop (evalQ σ q) objs).map
                (fun vs => pushValue v (Value.vseq vs)) = Except.ok c := hc
            have hxs := elemList_mapFree σ v.val objs hv ho
            cases hLoop : selLoop (evalQ σ q) objs with
            | error e => rw [hLoop] at hc2; exact Except.noConfusion hc2
            | ok vs =>
                rw [hLoop] at hc2
                have hvc := Except.ok.inj hc2
                have hm : mapFree (pushValue v (Value.vseq vs)).val = true :=
                  (mapFreeList_all vs).2 ((selLoop_permIrrel q objs σ σ2 hq hxs).2 vs hLoop)
                exact hvc ▸ hm
  | .mapQ m, σ, σ2, v, hq, _ => by simp [qMapFree] at hq
  | .fnQ t f, σ, σ2, v, hq, _ => by simp [qMapFree] at hq
  | .indexQ i, σ, σ2, v, _, hv =>
      ⟨rfl, fun c hc => indexEval_mapFree i v hv c hc⟩
  | .orQ qs, σ, σ2, v, hq, hv => evalOr_permIrrel qs σ σ2 v hq hv
  | .listQ qs, σ, σ2, v, hq, hv => by
      have h1 := evalList_permIrrel qs σ σ2 v hq hv
      constructor
      · rw [evalQ_list, evalQ_list, h1.1]
      · intro c hc
        rw [evalQ_list] at hc
        cases hl : evalList σ qs v with
        | error e => rw [hl] at hc; exact Except.noConfusion hc
        | ok vs =>
            rw [hl] at hc
            have hvc := Except.ok.inj hc
            have hm : mapFree (pushValue v (Value.vseq vs)).val = true :=
              (mapFreeList_all vs).2 (h1.2 vs hl)
            exact hvc ▸ hm
  | .catQ qs, σ, σ2, v, hq, hv => by
      have h1 := evalCat_permIrrel qs σ σ2 v hq hv
      constructor
      · rw [evalQ_cat, evalQ_cat, h1.1]
      · intro c hc
        rw [evalQ_cat] at hc
        cases hl : evalCat σ qs v with
        | error e => rw [hl] at hc; exact Except.noConfusion hc
        | ok vs =>
            rw [hl] at hc
            have hvc := Except.ok.inj hc
            have hm : mapFree (pushValue v (Value.vseq vs)).val = true :=
              (mapFreeList_all vs).2 (h1.2 vs hl)
            exact hvc ▸ hm
termination_by q => (sizeOf q, 0)

theorem evalSeq_permIrrel : (qs : List Query) → ∀ (σ σ2 : MapPerm) (v : Cell),
    qlMapFree qs = true → mapFree v.val = true →
    evalSeq σ qs v = evalSeq σ2 qs v ∧ (∀ c, evalSeq σ qs v = .ok c → mapFree c.val = true)
  | [], σ, σ2, v, _, hv => ⟨rfl, fun c hc => (Except.ok.inj hc) ▸ hv⟩
  | q :: qs, σ, σ2, v, hq, hv => by
      have hq2 : qMapFree q = true ∧ qlMapFree qs = true := by
        simpa [qlMapFree, Bool.and_eq_true] using hq
      have h1 := evalQ_permIrrel q σ σ2 v hq2.1 hv
      cases he : evalQ σ q v with
      | error e =>
          constructor
          · rw [evalSeq_cons, evalSeq_cons, ← h1.1, he]
          · intro c hc
            rw [evalSeq_cons, he] at hc
            exact Except.noConfusion hc
      | ok next =>
          have hnext : mapFree next.val = true := h1.2 next he
          have ih := evalSeq_permIrrel qs σ σ2 next hq2.2 hnext
          constructor
          · rw [evalSeq_cons, evalSeq_cons, ← h1.1, he]
            exact ih.1
          · intro c hc
            rw [evalSeq_cons, he] at hc
            exact ih.2 c hc
termination_by qs => (sizeOf qs, 0)

theorem evalOr_permIrrel : (qs : List Query) → ∀ (σ σ2 : MapPerm) (v : Cell),
    qlMapFree qs = true → mapFree v.val = true →
    evalOr σ qs v = evalOr σ2 qs v ∧ (∀ c, evalOr σ qs v = .ok c → mapFree c.val = true)
  | [], σ, σ2, v, _, _ =>
      ⟨rfl, fun c hc =>
        (Except.ok.inj hc) ▸ (rfl : mapFree (pushValue v Value.vnil).val = true)⟩
  | q :: qs, σ, σ2, v, hq, hv => by
      have hq2 : qMapFree q = true ∧ qlMapFree qs = true := by
        simpa [qlMapFree, Bool.and_eq_true] using hq
      have h1 := evalQ_permIrrel q σ σ2 v hq2.1 hv
      have ih := evalOr_permIrrel qs σ σ2 v hq2.2 hv
      cases he : evalQ σ q v with
      | error e =>
          constructor
          · rw [evalOr_cons, evalOr_cons, ← h1.1, he]
            exact ih.1
          · intro c hc
            rw [evalOr_cons, he] at hc
            exact ih.2 c hc
      | ok next =>
          have hnext : mapFree next.val = true := h1.2 next he
          have hm : mapFree (pushValue v next.val).val = true := hnext
          constructor
          · rw [evalOr_cons, evalOr_cons, ← h1.1, he]
            show (match next.val with
              | Value.vnil => evalOr σ qs v
              | w => Except.ok (pushValue v w)) =
              (match next.val with
              | Value.vnil => evalOr σ2 qs v
              | w => Except.ok (pushValue v w))
            cases next.val
            case vnil => exact ih.1
            all_goals rfl
          · intro c hc
            rw [evalOr_cons, he] at hc
            have hc3 : (match next.val with
              | Value.vnil => evalOr σ qs v
              | w => Except.ok (pushValue v w)) = .ok c := hc
            cases hn : next.val <;> rw [hn] at hc3
            case vnil => exact ih.2 c hc3
            all_goals
              rw [hn] at hm
              exact (Except.ok.inj hc3) ▸ hm
termination_by qs => (sizeOf qs, 0)

theorem evalList_permIrrel : (qs : List Query) → ∀ (σ σ2 : MapPerm) (v : Cell),
    qlMapFree qs = true → mapFree v.val = true →
    evalList σ qs v = evalList σ2 qs v ∧
      (∀ vs, evalList σ qs v = .ok vs → ∀ x ∈ vs, mapFree x = true)
  | [], σ, σ2, v, _, _ =>
      ⟨rfl, fun vs hvs => by
        have h := Except.ok.inj hvs
        intro x hx
        rw [← h] at hx
        cases hx⟩
  | q :: qs, σ, σ2, v, hq, hv => by
      have hq2 : qMapFree q = true ∧ qlMapFree qs = true := by
        simpa [qlMapFree, Bool.and_eq_true] using hq
      have h1 := evalQ_permIrrel q σ σ2 v hq2.1 hv
      have ih := evalList_permIrrel qs σ σ2 v hq2.2 hv
      cases he : evalQ σ q v with
      | error e =>
          constructor
          · rw [evalList_cons, evalList_cons, ← h1.1, he]
          · intro vs hvs
            rw [evalList_cons, he] at hvs
            exact Except.noConfusion hvs
      | ok c0 =>
          constructor
          · rw [evalList_cons, evalList_cons, ← h1.1, he]
            show (evalList σ qs v).map (fun vs => c0.val :: vs) =
              (evalList σ2 qs v).map (fun vs => c0.val :: vs)
            rw [ih.1]
          · intro vs hvs
            rw [evalList_cons, he] at hvs
            have hvs3 : (evalList σ qs v).map (fun ws => c0.val :: ws) = .ok vs := hvs
            cases hl : evalList σ qs v with
            | error e => rw [hl] at hvs3; exact Except.noConfusion hvs3
            | ok ws =>
                rw [hl] at hvs3
                have hcons := Except.ok.inj hvs3
                intro x hx
                rw [← hcons] at hx
                rcases List.mem_cons.mp hx with h | h
                · exact h ▸ h1.2 c0 he
                · exact ih.2 ws hl x h
termination_by qs => (sizeOf qs, 0)

theorem evalCat_permIrrel : (qs : List Query) → ∀ (σ σ2 : MapPerm) (v : Cell),
    qlMapFree qs = true → mapFree v.val = true →
    evalCat σ qs v = evalCat σ2 qs v ∧
      (∀ vs, evalCat σ qs v = .ok vs → ∀ x ∈ vs, mapFree x = true)
  | [], σ, σ2, v, _, _ =>
      ⟨rfl, fun vs hvs => by
        have h := Except.ok.inj hvs
        intro x hx
        rw [← h] at hx
        cases hx⟩
  | q :: qs, σ, σ2, v, hq, hv => by
      have hq2 : qMapFree q = true ∧ qlMapFree qs = true := by
        simpa [qlMapFree, Bool.and_eq_true] using hq
      have h1 := evalQ_permIrrel q σ σ2 v hq2.1 hv
      have ih := evalCat_permIrrel qs σ σ2 v hq2.2 hv
      cases he : evalQ σ q v with
      | error e =>
          constructor
          · rw [evalCat_cons, evalCat_cons, ← h1.1, he]
          · intro vs hvs
            rw [evalCat_cons, he] at hvs
            exact Except.noConfusion hvs
      | ok c0 =>
          constructor
          · rw [evalCat_cons, evalCat_cons, ← h1.1, he]
            show (evalCat σ qs v).map (fun vs => catSplice c0.val ++ vs) =
              (evalCat σ2 qs v).map (fun vs => catSplice c0.val ++ vs)
            rw [ih.1]
          · intro vs hvs
            rw [evalCat_cons, he] at hvs
            have hvs3 : (evalCat σ qs v).map (fun ws => catSplice c0.val ++ ws) = .ok vs := hvs
            cases hl : evalCat σ qs v with
            | error e => rw [hl] at hvs3; exact Except.noConfusion hvs3
            | ok ws =>
                rw [hl] at hvs3
                have hcons := Except.ok.inj hvs3
                intro x hx
                rw [← hcons] at hx
                rcases List.mem_append.mp hx with h | h
                · exact catSplice_mapFree c0.val (h1.2 c0 he) x h
                · exact ih.2 ws hl x h
termination_by qs => (sizeOf qs, 0)

theorem eachLoop_permIrrel : (q : Query) → (xs : List Value) →
    ∀ (σ σ2 : MapPerm) (par : Cell), qMapFree q = true → (∀ x ∈ xs, mapFree x = true) →
    eachLoop (evalQ σ q) par xs = eachLoop (evalQ σ2 q) par xs ∧
      (∀ vs, eachLoop (evalQ σ q) par xs = .ok vs → ∀ y ∈ vs, mapFree y = true)
  | q, [], σ, σ2, par, _, _ =>
      ⟨rfl, fun vs hvs => by
        have h := Except.ok.inj hvs
        intro y hy
        rw [← h] at hy
        cases hy⟩
  | q, x :: xs, σ, σ2, par, hq, hmem => by
      have hx : mapFree (pushValue par x).val = true := hmem x (by simp)
      have h1 := evalQ_permIrrel q σ σ2 (pushValue par x) hq hx
      have ih := eachLoop_permIrrel q xs σ σ2 par hq (fun y hy => hmem y (by simp [hy]))
      cases he : evalQ σ q (pushValue par x) with
      | error e =>
          constructor
          · rw [eachLoop_cons, eachLoop_cons, ← h1.1, he]
          · intro vs hvs
            rw [eachLoop_cons, he] at hvs
            exact Except.noConfusion hvs
      | ok c0 =>
          constructor
          · rw [eachLoop_cons, eachLoop_cons, ← h1.1, he]
            show (eachLoop (evalQ σ q) par xs).map (fun vs => c0.val :: vs) =
              (eachLoop (evalQ σ2 q) par xs).map (fun vs => c0.val :: vs)
            rw [ih.1]
          · intro vs hvs
            rw [eachLoop_cons, he] at hvs
            have hvs3 : (eachLoop (evalQ σ q) par xs).map (fun ws => c0.val :: ws) = .ok vs := hvs
            cases hl : eachLoop (evalQ σ q) par xs with
            | error e => rw [hl] at hvs3; exact Except.noConfusion hvs3
            | ok ws =>
                rw [hl] at hvs3
                have hcons := Except.ok.inj hvs3
                intro y hy
                rw [← hcons] at hy
                rcases List.mem_cons.mp hy with h | h
                · exact h ▸ h1.2 c0 he
                · exact ih.2 ws hl y h
termination_by q xs => (sizeOf q, 1 + xs.length)

theorem selLoop_permIrrel : (q : Query) → (xs : List Value) →
    ∀ (σ σ2 : MapPerm), qMapFree q = true → (∀ x ∈ xs, mapFree x = true) →
    selLoop (evalQ σ q) xs = selLoop (evalQ σ2 q) xs ∧
      (∀ vs, selLoop (evalQ σ q) xs = .ok vs → ∀ y ∈ vs, mapFree y = true)
  | q, [], σ, σ2, _, _ =>
      ⟨rfl, fun vs hvs => by
        have h := Except.ok.inj hvs
        intro y hy
        rw [← h] at hy
        cases hy⟩
  | q, x :: xs, σ, σ2, hq, hmem => by
      have hx : mapFree (newValue x).val = true := hmem x (by simp)
      have h1 := evalQ_permIrrel q σ σ2 (newValue x) hq hx
      have ih := selLoop_permIrrel q xs σ σ2 hq (fun y hy => hmem y (by simp [hy]))
      cases he : evalQ σ q (newValue x) with
      | error e =>
          constructor
          · rw [selLoop_cons, selLoop_cons, ← h1.1, he]
          · intro vs hvs
            rw [selLoop_cons, he] at hvs
            exact Except.noConfusion hvs
      | ok c0 =>
          constructor
          · rw [selLoop_cons, selLoop_cons, ← h1.1, he]
            show (match c0.val with
              | Value.vbool true => (selLoop (evalQ σ q) xs).map (fun vs => x :: vs)
              | Value.vbool false => selLoop (evalQ σ q) xs
              | w => Except.error ("select query yielded " ++ typeName w ++ ", not bool")) =
              (match c0.val with
              | Value.vbool true => (selLoop (evalQ σ2 q) xs).map (fun vs => x :: vs)
              | Value.vbool false => selLoop (evalQ σ2 q) xs
              | w => Except.error ("select query yielded " ++ typeName w ++ ", not bool"))
            cases c0.val with
            | vbool b => cases b <;> rw [ih.1]
            | _ => rfl
          · intro vs hvs
            rw [selLoop_cons, he] at hvs
            have hvs3 : (match c0.val with
              | Value.vbool true => (selLoop (evalQ σ q) xs).map (fun ws => x :: ws)
              | Value.vbool false => selLoop (evalQ σ q) xs
              | w => Except.error ("select query yielded " ++ typeName w ++ ", not bool")) =
                .ok vs := hvs
            cases hcv : c0.val <;> rw [hcv] at hvs3 <;>
              try exact Except.noConfusion hvs3
            case vbool b =>
              cases b
              · exact ih.2 vs hvs3
              · cases hl : selLoop (evalQ σ q) xs with
                | error e => rw [hl] at hvs3; exact Except.noConfusion hvs3
                | ok ws =>
                    rw [hl] at hvs3
                    have hcons := Except.ok.inj hvs3
                    intro y hy
                    rw [← hcons] at hy
                    rcases List.mem_cons.mp hy with h | h
                    · exact h ▸ hmem x (by simp)
                    · exact ih.2 ws hl y h
termination_by q xs => (sizeOf q, 1 + xs.length)

end

/-- Counterexample for C4: Go fixes no iteration order for maps, and the
result of `Each` over a two-entry map differs between two orders a run may
exhibit, so repeated evaluations of the same query on the same input need
not be identical when a map is traversed. -/
theorem evalMapOrderDependent :
    EvalO idPerm (.each .selfQ) (.vmap .tStr [(.vstr "a", .vint 1), (.vstr "b", .vint 2)]) ≠
    EvalO revPerm (.each .selfQ) (.vmap .tStr [(.vstr "a", .vint 1), (.vstr "b", .vint 2)]) := by
  decide

/-- Claim C4, amended: evaluation is a pure function of the query, the
input, and the map iteration order — no state is retained between
invocations — and whenever neither the input nor the query involves an
associative map (no `Map` bindings, no transform functions, map-free
constants), the outcome is identical for every iteration order, so
repeated evaluations agree; when a map with two or more entries is
traversed by `Each` or `Select` the outcome may depend on the order. -/
theorem evalOrderIrrelevantMapFree :
    ∀ (σ σ2 : MapPerm) (q : Query) (v : Value),
      qMapFree q = true → mapFree v = true → EvalO σ q v = EvalO σ2 q v := by
  intro σ σ2 q v hq hv
  have h := evalQ_permIrrel q σ σ2 (newValue v) hq hv
  rw [EvalO, EvalO, h.1]

/-- Witness for the amended C4: `Each(Key("A"))` over a map-free sequence
of records evaluates identically under the identity and the reversed
iteration orders. -/
theorem evalOrderIrrelevantMapFreeWitness :
    EvalO idPerm (.each (.keyQ (.vstr "A"))) (.vseq [t1v]) =
      EvalO revPerm (.each (.keyQ (.vstr "A"))) (.vseq [t1v]) :=
  evalOrderIrrelevantMapFree idPerm revPerm (.each (.keyQ (.vstr "A"))) (.vseq [t1v])
    rfl (by decide)
